import Mathlib

/-!
Shallow embedding of the two `parseM3U` implementations of `script.js`.

The repository's single source file contains two revisions of the script,
each with its own `parseM3U` function:
  * the first at lines 33-111 (called `V1` below), and
  * the second at lines 533-616 (called `V2` below).

Strings are modelled as `List Char`.  The JavaScript regular expressions
are modelled by hand-written scanners that reproduce the leftmost-match,
greedy/lazy backtracking semantics of the concrete patterns appearing in
the source:
  V1  `/#EXTINF:-?\d+ ?(?:([^,]+))?,?(.*)/`          (`attributeRegex`)
  V1  `/#EXTINF:-?\d+,?(.*)/`                        (fallback `titleMatch`)
  V2  `/#EXTINF:-?\d+(?:\s+(.*?))?,(.*)/`            (`extinfRegex`)
  both `/([\w-]+)\s*=\s*"([^"]*)"/g`                 (`attributeValueRegex`)
-/

namespace M3U

/-- Characters of a Lean string literal; all embedded text uses `List Char`. -/
def str (s : String) : List Char := s.data

/-- ECMAScript WhiteSpace or LineTerminator characters: the set matched by the
regex class `\s` and stripped by `String.prototype.trim`. -/
def isJsSpace (c : Char) : Bool :=
  decide ((9 ≤ c.toNat ∧ c.toNat ≤ 13) ∨ c.toNat = 32 ∨ c.toNat = 160 ∨
    c.toNat = 0x1680 ∨ (0x2000 ≤ c.toNat ∧ c.toNat ≤ 0x200A) ∨ c.toNat = 0x202F ∨
    c.toNat = 0x205F ∨ c.toNat = 0x3000 ∨ c.toNat = 0x2028 ∨ c.toNat = 0x2029 ∨
    c.toNat = 0xFEFF)

/-- ECMAScript LineTerminator characters: the characters the regex `.` (and the
lazy `.*?`) does not match. -/
def isLineTerm (c : Char) : Bool :=
  decide (c.toNat = 10 ∨ c.toNat = 13 ∨ c.toNat = 0x2028 ∨ c.toNat = 0x2029)

/-- The regex class `\d`. -/
def isDigitC (c : Char) : Bool :=
  decide ('0' ≤ c ∧ c ≤ '9')

/-- The regex class `[\w-]` (word characters together with the hyphen). -/
def isWordChar (c : Char) : Bool :=
  decide (('a' ≤ c ∧ c ≤ 'z') ∨ ('A' ≤ c ∧ c ≤ 'Z') ∨ ('0' ≤ c ∧ c ≤ '9') ∨
    c = '_' ∨ c = '-')

/-- `String.prototype.toLowerCase` restricted to the characters that can occur
in an attribute key (`[\w-]+`), where it is plain ASCII lowering. -/
def asciiLowerChar (c : Char) : Char :=
  if 'A' ≤ c ∧ c ≤ 'Z' then Char.ofNat (c.toNat + 32) else c

/-- Lower-casing of an attribute key, cf. `attrMatch[1].toLowerCase()`. -/
def asciiLower (l : List Char) : List Char := l.map asciiLowerChar

/-- Longest prefix of characters satisfying `p` (a greedy character class). -/
def takeWhileL (p : Char → Bool) : List Char → List Char
  | [] => []
  | c :: cs => if p c then c :: takeWhileL p cs else []

/-- Remainder after `takeWhileL p`. -/
def dropWhileL (p : Char → Bool) : List Char → List Char
  | [] => []
  | c :: cs => if p c then dropWhileL p cs else c :: cs

/-- Strip trailing `isJsSpace` characters. -/
def trimRightL (l : List Char) : List Char :=
  (dropWhileL isJsSpace l.reverse).reverse

/-- `String.prototype.trim`: strip leading and trailing whitespace. -/
def jsTrim (l : List Char) : List Char :=
  trimRightL (dropWhileL isJsSpace l)

/-- `String.prototype.startsWith pat l`: does `l` begin with the pattern
(first argument)? -/
def startsWithL : List Char → List Char → Bool
  | [], _ => true
  | _ :: _, [] => false
  | p :: ps, c :: cs => if p = c then startsWithL ps cs else false

/-- Remove a literal pattern from the front of a string, if present. -/
def dropPrefixL : List Char → List Char → Option (List Char)
  | [], l => some l
  | _ :: _, [] => none
  | p :: ps, c :: cs => if p = c then dropPrefixL ps cs else none

/-- `m3uText.split('\n')`: split on every newline; the empty string yields one
empty line, a trailing newline yields a trailing empty line. -/
def splitOnNl : List Char → List (List Char)
  | [] => [[]]
  | c :: cs =>
    if c = '\n' then [] :: splitOnNl cs
    else
      match splitOnNl cs with
      | [] => [[c]]
      | l :: ls => (c :: l) :: ls

/-- The channel record built by both versions of `parseM3U` (lines 50-57 and
552-559 of the source). -/
structure Channel where
  title : List Char
  streamUrl : List Char
  logo : Option (List Char)
  groupTitle : List Char
  tvgId : Option (List Char)
  rawAttributes : List (List Char × List Char)
deriving DecidableEq

/-- The freshly initialised `currentChannel` object. -/
def initChannel : Channel :=
  { title := []
    streamUrl := []
    logo := none
    groupTitle := str "Uncategorized"
    tvgId := none
    rawAttributes := [] }

/-- `currentChannel.rawAttributes[key] = value`: JavaScript object update,
overwriting in place on a repeated key, appending otherwise. -/
def insertAttr : List (List Char × List Char) → List Char → List Char →
    List (List Char × List Char)
  | [], k, v => [(k, v)]
  | (k0, v0) :: rest, k, v =>
    if k0 = k then (k0, v) :: rest else (k0, v0) :: insertAttr rest k v

/-- One iteration of the attribute loop (lines 66-83 / 568-585): lower-case the
key, record it in `rawAttributes`, and promote the recognised keys. -/
def applyAttr (c : Channel) (kv : List Char × List Char) : Channel :=
  let key := asciiLower kv.1
  let value := kv.2
  let c1 := { c with rawAttributes := insertAttr c.rawAttributes key value }
  let c2 := if key = str "tvg-id" then { c1 with tvgId := some value } else c1
  let c3 := if key = str "tvg-name" then { c2 with title := value } else c2
  let c4 := if key = str "tvg-logo" then { c3 with logo := some value } else c3
  if key = str "group-title" then { c4 with groupTitle := value } else c4

/-- One match attempt of `/([\w-]+)\s*=\s*"([^"]*)"/` at the head of the
string: greedy key run, optional whitespace around `=`, quoted value (the
negated class `[^"]*` matches everything but a quote).  Returns the captured
key and value and the remainder after the closing quote. -/
def tryPairAt (s : List Char) : Option ((List Char × List Char) × List Char) :=
  let key := takeWhileL isWordChar s
  if key = [] then none
  else
    let r1 := dropWhileL isWordChar s
    let r2 := dropWhileL isJsSpace r1
    match r2 with
    | '=' :: r3 =>
      let r4 := dropWhileL isJsSpace r3
      match r4 with
      | '"' :: r5 =>
        let v := takeWhileL (fun c => !(c = '"')) r5
        match dropWhileL (fun c => !(c = '"')) r5 with
        | '"' :: r6 => some ((key, v), r6)
        | _ => none
      | _ => none
    | _ => none

/-- Leftmost match of the attribute-pair regex: try each start position from
the left, as a JavaScript global regex does. -/
def findPair : List Char → Option ((List Char × List Char) × List Char)
  | [] => none
  | c :: cs =>
    match tryPairAt (c :: cs) with
    | some r => some r
    | none => findPair cs

/-- Repeated `attributeValueRegex.exec` until `null`, fuelled: every successful
match consumes at least four characters, so fuel `length + 1` never runs out
and the fuelled function computes the full match list. -/
def extractPairsAux : Nat → List Char → List (List Char × List Char)
  | 0, _ => []
  | n + 1, s =>
    match findPair s with
    | none => []
    | some (kv, rest) => kv :: extractPairsAux n rest

/-- All `key="value"` pairs of an attribute string, in match order (the `while`
loops at lines 66 / 568). -/
def extractPairs (s : List Char) : List (List Char × List Char) :=
  extractPairsAux (s.length + 1) s

/-- One match attempt of V1's `attributeRegex`
`/#EXTINF:-?\d+ ?(?:([^,]+))?,?(.*)/` at the head of the string.  After the
digits everything in the pattern is optional, so a match attempt succeeds as
soon as `#EXTINF:-?\d+` is present; the greedy optional group captures the
maximal non-comma run (capturing nothing when that run is empty), an optional
comma is skipped, and `(.*)` captures up to the next line terminator. -/
def matchAtV1 (s : List Char) : Option (Option (List Char) × List Char) :=
  match dropPrefixL (str "#EXTINF:") s with
  | none => none
  | some r0 =>
    let r1 := match r0 with
      | '-' :: t => t
      | _ => r0
    let ds := takeWhileL isDigitC r1
    if ds = [] then none
    else
      let r2 := dropWhileL isDigitC r1
      let r3 := match r2 with
        | ' ' :: t => t
        | _ => r2
      let attrs := takeWhileL (fun c => !(c = ',')) r3
      let r4 := dropWhileL (fun c => !(c = ',')) r3
      let r5 := match r4 with
        | ',' :: t => t
        | _ => r4
      let title := takeWhileL (fun c => !(isLineTerm c)) r5
      some ((if attrs = [] then none else some attrs), title)

/-- `line.match(attributeRegex)`: leftmost match over all start positions. -/
def searchV1 : List Char → Option (Option (List Char) × List Char)
  | [] => none
  | c :: cs =>
    match matchAtV1 (c :: cs) with
    | some r => some r
    | none => searchV1 cs

/-- One match attempt of V1's fallback regex `/#EXTINF:-?\d+,?(.*)/`. -/
def matchAtV1b (s : List Char) : Option (List Char) :=
  match dropPrefixL (str "#EXTINF:") s with
  | none => none
  | some r0 =>
    let r1 := match r0 with
      | '-' :: t => t
      | _ => r0
    let ds := takeWhileL isDigitC r1
    if ds = [] then none
    else
      let r2 := dropWhileL isDigitC r1
      let r3 := match r2 with
        | ',' :: t => t
        | _ => r2
      some (takeWhileL (fun c => !(isLineTerm c)) r3)

/-- `line.match(/#EXTINF:-?\d+,?(.*)/)`: leftmost match. -/
def searchV1b : List Char → Option (List Char)
  | [] => none
  | c :: cs =>
    match matchAtV1b (c :: cs) with
    | some r => some r
    | none => searchV1b cs

/-- One match attempt of V2's `extinfRegex` `/#EXTINF:-?\d+(?:\s+(.*?))?,(.*)/`
at the head of the string.  After the digits: if whitespace follows, the greedy
`\s+` takes the maximal whitespace run and the lazy `.*?` then stops at the
first comma, failing if a line terminator or the end of the string intervenes
(backtracking `\s+` into the whitespace run cannot create a comma, so the
attempt fails outright); otherwise the group is skipped and a comma is
mandatory. -/
def matchAtV2 (s : List Char) : Option (Option (List Char) × List Char) :=
  match dropPrefixL (str "#EXTINF:") s with
  | none => none
  | some r0 =>
    let r1 := match r0 with
      | '-' :: t => t
      | _ => r0
    let ds := takeWhileL isDigitC r1
    if ds = [] then none
    else
      let r2 := dropWhileL isDigitC r1
      let ws := takeWhileL isJsSpace r2
      if ws = [] then
        match r2 with
        | ',' :: t => some (none, takeWhileL (fun c => !(isLineTerm c)) t)
        | _ => none
      else
        let r3 := dropWhileL isJsSpace r2
        let g := takeWhileL (fun c => !(c = ',') && !(isLineTerm c)) r3
        match dropWhileL (fun c => !(c = ',') && !(isLineTerm c)) r3 with
        | ',' :: t => some (some g, takeWhileL (fun c => !(isLineTerm c)) t)
        | _ => none

/-- `trimmedLine.match(extinfRegex)`: leftmost match over all start positions. -/
def searchV2 : List Char → Option (Option (List Char) × List Char)
  | [] => none
  | c :: cs =>
    match matchAtV2 (c :: cs) with
    | some r => some r
    | none => searchV2 cs

/-- The title-text fallback of lines 85-87 / 587-589: when the attribute loop
left the title empty (JavaScript falsiness of `''`), use the title text. -/
def titleFallbackV1 (c : Channel) (titleString : List Char) : Channel :=
  if c.title = [] then { c with title := titleString } else c

/-- V2's fallback chain (lines 587-593): the title-text fallback followed by
the `'Untitled Channel'` placeholder when the title is still empty. -/
def titleFallbackV2 (c : Channel) (titleString : List Char) : Channel :=
  let c1 := titleFallbackV1 c titleString
  if c1.title = [] then { c1 with title := str "Untitled Channel" } else c1

/-- V1 channel assembly from a successful `attributeRegex` match (lines 61-87):
attribute loop, then the title-text fallback when `tvg-name` left the title
empty.  `attrs = none` models an `undefined` group: `exec` then runs on the
string `"undefined"`, which contains no `key="value"` pair. -/
def buildChannelV1 (attrs : Option (List Char)) (titleRaw : List Char) : Channel :=
  titleFallbackV1 ((extractPairs (attrs.getD [])).foldl applyAttr initChannel)
    (jsTrim titleRaw)

/-- V1 processing of a `#EXTINF` line (lines 50-94): on a regex match build the
channel; otherwise try the simpler fallback regex, which can set only the
title.  In every case a pending channel object exists afterwards. -/
def extinfChannelV1 (line : List Char) : Channel :=
  match searchV1 line with
  | some (attrs, titleRaw) => buildChannelV1 attrs titleRaw
  | none =>
    match searchV1b line with
    | some t => if t ≠ [] then { initChannel with title := jsTrim t } else initChannel
    | none => initChannel

/-- V2 channel assembly from a successful `extinfRegex` match (lines 562-593):
attribute loop, title-text fallback, then the `'Untitled Channel'` placeholder
when the title is still empty. -/
def buildChannelV2 (attrs : Option (List Char)) (titleRaw : List Char) : Channel :=
  titleFallbackV2 ((extractPairs (attrs.getD [])).foldl applyAttr initChannel)
    (jsTrim titleRaw)

/-- V2 processing of a `#EXTINF` line (lines 552-600): on a regex match build
the channel; otherwise the line is malformed and `currentChannel` is reset to
`null`. -/
def extinfChannelV2 (line : List Char) : Option Channel :=
  match searchV2 line with
  | none => none
  | some (attrs, titleRaw) => some (buildChannelV2 attrs titleRaw)

/-- What a classified line does to the parser state: nothing, start a pending
entry (possibly `null` in V2), or supply a stream URL. -/
inductive LAction where
  | skip : LAction
  | extinf (c : Option Channel) : LAction
  | url (u : List Char) : LAction
deriving DecidableEq

/-- V1 line classification (lines 45-49 and 96): blank lines and `#EXTM3U`
lines are skipped, `#EXTINF` lines start a pending entry, `http` lines supply
the trimmed URL; everything is tested on the raw, untrimmed line. -/
def lineActV1 (line : List Char) : LAction :=
  if jsTrim line = [] ∨ startsWithL (str "#EXTM3U") line = true then .skip
  else if startsWithL (str "#EXTINF") line = true then
    .extinf (some (extinfChannelV1 line))
  else if startsWithL (str "http") line = true then .url (jsTrim line)
  else .skip

/-- V2 line classification (lines 546-551 and 602): as V1, but every test and
the URL use the trimmed line. -/
def lineActV2 (line : List Char) : LAction :=
  let t := jsTrim line
  if t = [] ∨ startsWithL (str "#EXTM3U") t = true then .skip
  else if startsWithL (str "#EXTINF") t = true then .extinf (extinfChannelV2 t)
  else if startsWithL (str "http") t = true then .url t
  else .skip

/-- Whether a URL passes the scheme check of lines 101 / 607. -/
def urlOkB (u : List Char) : Bool :=
  startsWithL (str "http://") u || startsWithL (str "https://") u

/-- The state transition shared verbatim by both versions (lines 96-108 /
602-613): a URL line with a pending entry sets `streamUrl`, pushes the channel
when the scheme check passes, and clears the pending slot either way; a URL
line without a pending entry does nothing. -/
def actStep (st : List Channel × Option Channel) (a : LAction) :
    List Channel × Option Channel :=
  match a with
  | .skip => st
  | .extinf c => (st.1, c)
  | .url u =>
    match st.2 with
    | none => st
    | some c =>
      let c2 := { c with streamUrl := u }
      if c2.streamUrl ≠ [] ∧ urlOkB c2.streamUrl = true then (st.1 ++ [c2], none)
      else (st.1, none)

/-- One loop iteration of V1's `parseM3U`. -/
def stepV1 (st : List Channel × Option Channel) (line : List Char) :
    List Channel × Option Channel :=
  actStep st (lineActV1 line)

/-- One loop iteration of V2's `parseM3U`. -/
def stepV2 (st : List Channel × Option Channel) (line : List Char) :
    List Channel × Option Channel :=
  actStep st (lineActV2 line)

/-- The whole of V1's `parseM3U` on a character list. -/
def parseChannelsV1 (text : List Char) : List Channel :=
  ((splitOnNl text).foldl stepV1 ([], none)).1

/-- The whole of V2's `parseM3U` on a character list. -/
def parseChannelsV2 (text : List Char) : List Channel :=
  ((splitOnNl text).foldl stepV2 ([], none)).1

/-- `parseM3U` of the first script revision (lines 33-111). -/
def parseM3U_v1 (s : String) : List Channel := parseChannelsV1 s.data

/-- `parseM3U` of the second script revision (lines 533-616). -/
def parseM3U_v2 (s : String) : List Channel := parseChannelsV2 s.data

/-- The value the attribute loop leaves in a field written at key `tvg-name`:
the value of the last pair whose lower-cased key is `tvg-name`, if any. -/
def lastTvgName : List (List Char × List Char) → Option (List Char)
  | [] => none
  | p :: ps =>
    match lastTvgName ps with
    | some v => some v
    | none => if asciiLower p.1 = str "tvg-name" then some p.2 else none

/-- Title resolution as the specification words it: the `tvg-name` value when
present and non-empty, else the trimmed title text when non-empty, else the
fixed placeholder string. -/
def specTitle (tvgName : Option (List Char)) (titleText : List Char) : List Char :=
  match tvgName with
  | some v => if v ≠ [] then v else if titleText ≠ [] then titleText else str "Untitled Channel"
  | none => if titleText ≠ [] then titleText else str "Untitled Channel"

/-- Title resolution of the first implementation: as `specTitle` but with no
placeholder, so the result may be empty. -/
def specTitleV1 (tvgName : Option (List Char)) (titleText : List Char) : List Char :=
  match tvgName with
  | some v => if v ≠ [] then v else titleText
  | none => titleText

/-- Instrumented variant of `actStep` used to express order preservation: the
state additionally counts lines, and a pending entry carries the 0-based index
of the `#EXTINF` line that created it, so every emitted channel is tagged with
the position of its metadata line. -/
def actStepIdx (st : Nat × List (Nat × Channel) × Option (Nat × Channel))
    (a : LAction) : Nat × List (Nat × Channel) × Option (Nat × Channel) :=
  match a with
  | .skip => (st.1 + 1, st.2)
  | .extinf c => (st.1 + 1, st.2.1, c.map (fun ch => (st.1, ch)))
  | .url u =>
    match st.2.2 with
    | none => (st.1 + 1, st.2)
    | some (i, c) =>
      let c2 := { c with streamUrl := u }
      if c2.streamUrl ≠ [] ∧ urlOkB c2.streamUrl = true then
        (st.1 + 1, st.2.1 ++ [(i, c2)], none)
      else (st.1 + 1, st.2.1, none)

/-- Instrumented V1 loop iteration. -/
def stepIdxV1 (st : Nat × List (Nat × Channel) × Option (Nat × Channel))
    (line : List Char) : Nat × List (Nat × Channel) × Option (Nat × Channel) :=
  actStepIdx st (lineActV1 line)

/-- Instrumented V2 loop iteration. -/
def stepIdxV2 (st : Nat × List (Nat × Channel) × Option (Nat × Channel))
    (line : List Char) : Nat × List (Nat × Channel) × Option (Nat × Channel) :=
  actStepIdx st (lineActV2 line)

/-- V1 parse with each output channel tagged by the index of its `#EXTINF`
line. -/
def parseIdxV1 (s : String) : List (Nat × Channel) :=
  ((splitOnNl s.data).foldl stepIdxV1 (0, [], none)).2.1

/-- V2 parse with each output channel tagged by the index of its `#EXTINF`
line. -/
def parseIdxV2 (s : String) : List (Nat × Channel) :=
  ((splitOnNl s.data).foldl stepIdxV2 (0, [], none)).2.1

/-- Forget the instrumentation of `actStepIdx`. -/
def eraseSt (st : Nat × List (Nat × Channel) × Option (Nat × Channel)) :
    List Channel × Option Channel :=
  (st.2.1.map Prod.snd, st.2.2.map Prod.snd)

/-- The input of the specification's concrete scenario 1. -/
def scenario1Text : String :=
  "#EXTM3U\n#EXTINF:-1 tvg-id=\"c1\" tvg-logo=\"http://x/l.png\" group-title=\"News\",Channel One\nhttp://x/stream1.m3u8\n"

/-- The channel the specification's concrete scenario 1 describes. -/
def scenario1Channel : Channel :=
  { title := str "Channel One"
    streamUrl := str "http://x/stream1.m3u8"
    logo := some (str "http://x/l.png")
    groupTitle := str "News"
    tvgId := some (str "c1")
    rawAttributes := [(str "tvg-id", str "c1"), (str "tvg-logo", str "http://x/l.png"),
      (str "group-title", str "News")] }

/- ### Basic lemmas about the string helpers -/

theorem startsWithL_iff_append : ∀ (p l : List Char),
    startsWithL p l = true ↔ ∃ r, l = p ++ r := by
  intro p
  induction p with
  | nil => intro l; simp [startsWithL]
  | cons a ps ih =>
    intro l
    cases l with
    | nil => simp [startsWithL]
    | cons c cs =>
      by_cases h : a = c
      · subst h
        simp [startsWithL, ih]
      · constructor
        · intro hf; simp [startsWithL, h] at hf
        · rintro ⟨r, hr⟩
          injection hr with h1 h2
          exact absurd h1.symm h

theorem startsWithL_append_self (p r : List Char) :
    startsWithL p (p ++ r) = true :=
  (startsWithL_iff_append p (p ++ r)).2 ⟨r, rfl⟩

theorem ne_nil_of_startsWithL {p l : List Char} (hp : p ≠ [])
    (h : startsWithL p l = true) : l ≠ [] := by
  obtain ⟨r, rfl⟩ := (startsWithL_iff_append p l).1 h
  cases p with
  | nil => exact absurd rfl hp
  | cons a ps => simp

theorem dropPrefixL_append : ∀ (p r : List Char), dropPrefixL p (p ++ r) = some r := by
  intro p
  induction p with
  | nil => intro r; rfl
  | cons a ps ih => intro r; simp [dropPrefixL, ih]

theorem takeWhileL_all {p : Char → Bool} :
    ∀ l, (∀ c ∈ l, p c = true) → takeWhileL p l = l := by
  intro l
  induction l with
  | nil => intro _; rfl
  | cons c cs ih =>
    intro h
    simp [takeWhileL, h c (by simp), ih fun x hx => h x (by simp [hx])]

theorem dropWhileL_all {p : Char → Bool} :
    ∀ l, (∀ c ∈ l, p c = true) → dropWhileL p l = [] := by
  intro l
  induction l with
  | nil => intro _; rfl
  | cons c cs ih =>
    intro h
    simp [dropWhileL, h c (by simp), ih fun x hx => h x (by simp [hx])]

theorem takeWhileL_append_stop {p : Char → Bool} :
    ∀ xs, (∀ c ∈ xs, p c = true) → ∀ y rest, p y = false →
      takeWhileL p (xs ++ y :: rest) = xs := by
  intro xs
  induction xs with
  | nil => intro _ y rest hy; simp [takeWhileL, hy]
  | cons c cs ih =>
    intro h y rest hy
    simp [takeWhileL, h c (by simp),
      ih (fun x hx => h x (by simp [hx])) y rest hy]

theorem dropWhileL_append_stop {p : Char → Bool} :
    ∀ xs, (∀ c ∈ xs, p c = true) → ∀ y rest, p y = false →
      dropWhileL p (xs ++ y :: rest) = y :: rest := by
  intro xs
  induction xs with
  | nil => intro _ y rest hy; simp [dropWhileL, hy]
  | cons c cs ih =>
    intro h y rest hy
    simp [dropWhileL, h c (by simp),
      ih (fun x hx => h x (by simp [hx])) y rest hy]

theorem dropWhileL_cons_false {p : Char → Bool} {c : Char} {l : List Char}
    (h : p c = false) : dropWhileL p (c :: l) = c :: l := by
  simp [dropWhileL, h]

theorem dropWhileL_append_split {p : Char → Bool} :
    ∀ u v, dropWhileL p (u ++ v) =
      if dropWhileL p u = [] then dropWhileL p v else dropWhileL p u ++ v := by
  intro u
  induction u with
  | nil => intro v; simp [dropWhileL]
  | cons c cs ih =>
    intro v
    by_cases h : p c = true
    · simp [dropWhileL, h, ih v]
    · simp [dropWhileL, Bool.eq_false_iff.2 h]

theorem mem_of_mem_dropWhileL {p : Char → Bool} :
    ∀ (l : List Char) (x : Char), x ∈ dropWhileL p l → x ∈ l := by
  intro l
  induction l with
  | nil => intro x hx; simp [dropWhileL] at hx
  | cons c cs ih =>
    intro x hx
    by_cases h : p c = true
    · simp only [dropWhileL, h, if_pos] at hx
      exact List.mem_cons_of_mem c (ih x hx)
    · simp only [dropWhileL, Bool.eq_false_iff.2 h, if_neg, Bool.false_ne_true,
        not_false_iff] at hx
      exact hx

theorem dropWhileL_ne_nil_of_mem {p : Char → Bool} :
    ∀ (l : List Char) (a : Char), a ∈ l → p a = false → dropWhileL p l ≠ [] := by
  intro l
  induction l with
  | nil => intro a ha; simp at ha
  | cons c cs ih =>
    intro a ha hpa
    by_cases h : p c = true
    · have hac : a ≠ c := fun hac => by rw [hac] at hpa; rw [hpa] at h; exact Bool.false_ne_true h
      have ha' : a ∈ cs := by
        rcases List.mem_cons.1 ha with h1 | h1
        · exact absurd h1 hac
        · exact h1
      simpa [dropWhileL, h] using ih a ha' hpa
    · simp [dropWhileL, Bool.eq_false_iff.2 h]

/- ### Trimming preserves non-whitespace prefixes -/

theorem trimRightL_startsWith {p l : List Char}
    (hnp : ∀ c ∈ p, isJsSpace c = false) (h : startsWithL p l = true) :
    startsWithL p (trimRightL l) = true := by
  obtain ⟨r, rfl⟩ := (startsWithL_iff_append p l).1 h
  unfold trimRightL
  rw [List.reverse_append, dropWhileL_append_split]
  by_cases hr : dropWhileL isJsSpace r.reverse = []
  · rw [if_pos hr]
    have hpr : dropWhileL isJsSpace p.reverse = p.reverse := by
      cases hq : p.reverse with
      | nil => simp [dropWhileL]
      | cons a as =>
        have ha : a ∈ p := by
          have : a ∈ p.reverse := by rw [hq]; simp
          simpa using this
        exact dropWhileL_cons_false (hnp a ha)
    rw [hpr, List.reverse_reverse]
    have := startsWithL_append_self p []
    simpa using this
  · rw [if_neg hr, List.reverse_append, List.reverse_reverse]
    exact startsWithL_append_self p _

theorem jsTrim_startsWith {p l : List Char}
    (hnp : ∀ c ∈ p, isJsSpace c = false) (h : startsWithL p l = true) :
    startsWithL p (jsTrim l) = true := by
  obtain ⟨r, rfl⟩ := (startsWithL_iff_append p l).1 h
  unfold jsTrim
  cases p with
  | nil => rfl
  | cons a ps =>
    rw [List.cons_append, dropWhileL_cons_false (hnp a (by simp))]
    exact trimRightL_startsWith hnp
      (by rw [← List.cons_append]; exact startsWithL_append_self _ r)

theorem jsTrim_ne_nil {c : Char} {l : List Char} (h : isJsSpace c = false) :
    jsTrim (c :: l) ≠ [] := by
  unfold jsTrim trimRightL
  rw [dropWhileL_cons_false h]
  intro hcon
  have : dropWhileL isJsSpace (c :: l).reverse = [] := by
    have := congrArg List.reverse hcon
    simpa using this
  exact dropWhileL_ne_nil_of_mem _ c (by simp) h this

theorem jsTrim_ne_nil_of_startsWithL {p l : List Char} (hp : p ≠ [])
    (hnp : ∀ c ∈ p, isJsSpace c = false) (h : startsWithL p l = true) :
    jsTrim l ≠ [] :=
  ne_nil_of_startsWithL hp (jsTrim_startsWith hnp h)

/- ### Splitting on newlines -/

theorem splitOnNl_nonl : ∀ (a : List Char), '\n' ∉ a → splitOnNl a = [a] := by
  intro a
  induction a with
  | nil => intro _; rfl
  | cons c cs ih =>
    intro h
    have hc : ¬(c = '\n') := fun hc => h (by simp [hc])
    have hcs : '\n' ∉ cs := fun hm => h (by simp [hm])
    simp [splitOnNl, hc, ih hcs]

theorem splitOnNl_append : ∀ (a b : List Char), '\n' ∉ a →
    splitOnNl (a ++ '\n' :: b) = a :: splitOnNl b := by
  intro a
  induction a with
  | nil => intro b _; simp [splitOnNl]
  | cons c cs ih =>
    intro b h
    have hc : ¬(c = '\n') := fun hc => h (by simp [hc])
    have hcs : '\n' ∉ cs := fun hm => h (by simp [hm])
    simp [splitOnNl, hc, ih b hcs]

/- ### Concrete marker patterns -/

theorem extm3u_not_extinf (r : List Char) :
    startsWithL (str "#EXTM3U") (str "#EXTINF" ++ r) = false := rfl

theorem extinf_self_extinf (r : List Char) :
    startsWithL (str "#EXTINF") (str "#EXTINF" ++ r) = true := rfl

theorem extm3u_not_http (r : List Char) :
    startsWithL (str "#EXTM3U") (str "http://" ++ r) = false := rfl

theorem extm3u_not_https (r : List Char) :
    startsWithL (str "#EXTM3U") (str "https://" ++ r) = false := rfl

theorem extinf_not_http (r : List Char) :
    startsWithL (str "#EXTINF") (str "http://" ++ r) = false := rfl

theorem extinf_not_https (r : List Char) :
    startsWithL (str "#EXTINF") (str "https://" ++ r) = false := rfl

theorem http_of_http (r : List Char) :
    startsWithL (str "http") (str "http://" ++ r) = true := rfl

theorem http_of_https (r : List Char) :
    startsWithL (str "http") (str "https://" ++ r) = true := rfl

/- ### Step lemmas -/

theorem actStep_skip (st : List Channel × Option Channel) :
    actStep st .skip = st := rfl

theorem actStep_extinf (st : List Channel × Option Channel) (c : Option Channel) :
    actStep st (.extinf c) = (st.1, c) := rfl

theorem actStep_url_none (chs : List Channel) (u : List Char) :
    actStep (chs, none) (.url u) = (chs, none) := rfl

theorem actStep_url_push (chs : List Channel) (c : Channel) (u : List Char)
    (h : urlOkB u = true) :
    actStep (chs, some c) (.url u) = (chs ++ [{ c with streamUrl := u }], none) := by
  have hu : u ≠ [] := by
    rcases Bool.or_eq_true_iff.1 h with h' | h'
    · exact ne_nil_of_startsWithL (by decide) h'
    · exact ne_nil_of_startsWithL (by decide) h'
  simp [actStep, hu, h]

/- ### Line classification lemmas -/

theorem lineActV1_extinf (r : List Char) :
    lineActV1 (str "#EXTINF" ++ r) =
      .extinf (some (extinfChannelV1 (str "#EXTINF" ++ r))) := by
  have h1 : jsTrim (str "#EXTINF" ++ r) ≠ [] :=
    jsTrim_ne_nil_of_startsWithL (p := str "#EXTINF") (by decide) (by decide)
      (extinf_self_extinf r)
  unfold lineActV1
  rw [if_neg (by
    intro hor
    rcases hor with h | h
    · exact h1 h
    · rw [extm3u_not_extinf] at h; exact Bool.false_ne_true h)]
  rw [if_pos (extinf_self_extinf r)]

theorem lineActV2_extinf {line : List Char}
    (h : startsWithL (str "#EXTINF") (jsTrim line) = true) :
    lineActV2 line = .extinf (extinfChannelV2 (jsTrim line)) := by
  obtain ⟨r, hr⟩ := (startsWithL_iff_append _ _).1 h
  have h1 : jsTrim line ≠ [] := ne_nil_of_startsWithL (by decide) h
  unfold lineActV2
  rw [if_neg (by
    intro hor
    rcases hor with h' | h'
    · exact h1 h'
    · rw [hr, extm3u_not_extinf] at h'; exact Bool.false_ne_true h')]
  rw [if_pos h]

theorem lineActV1_url {line : List Char}
    (h : startsWithL (str "http://") line = true ∨
         startsWithL (str "https://") line = true) :
    lineActV1 line = .url (jsTrim line) := by
  rcases h with h | h
  · obtain ⟨r, rfl⟩ := (startsWithL_iff_append _ _).1 h
    have h1 : jsTrim (str "http://" ++ r) ≠ [] :=
      jsTrim_ne_nil_of_startsWithL (p := str "http://") (by decide) (by decide) h
    unfold lineActV1
    rw [if_neg (by
      intro hor
      rcases hor with h' | h'
      · exact h1 h'
      · rw [extm3u_not_http] at h'; exact Bool.false_ne_true h')]
    rw [if_neg (by
      intro h'
      rw [extinf_not_http] at h'; exact Bool.false_ne_true h')]
    rw [if_pos (http_of_http r)]
  · obtain ⟨r, rfl⟩ := (startsWithL_iff_append _ _).1 h
    have h1 : jsTrim (str "https://" ++ r) ≠ [] :=
      jsTrim_ne_nil_of_startsWithL (p := str "https://") (by decide) (by decide) h
    unfold lineActV1
    rw [if_neg (by
      intro hor
      rcases hor with h' | h'
      · exact h1 h'
      · rw [extm3u_not_https] at h'; exact Bool.false_ne_true h')]
    rw [if_neg (by
      intro h'
      rw [extinf_not_https] at h'; exact Bool.false_ne_true h')]
    rw [if_pos (http_of_https r)]

theorem lineActV2_url {line : List Char}
    (h : startsWithL (str "http://") (jsTrim line) = true ∨
         startsWithL (str "https://") (jsTrim line) = true) :
    lineActV2 line = .url (jsTrim line) := by
  rcases h with h | h
  · obtain ⟨r, hr⟩ := (startsWithL_iff_append _ _).1 h
    have h1 : jsTrim line ≠ [] := ne_nil_of_startsWithL (by decide) h
    unfold lineActV2
    rw [if_neg (by
      intro hor
      rcases hor with h' | h'
      · exact h1 h'
      · rw [hr, extm3u_not_http] at h'; exact Bool.false_ne_true h')]
    rw [if_neg (by
      intro h'
      rw [hr, extinf_not_http] at h'; exact Bool.false_ne_true h')]
    rw [if_pos (by rw [hr]; exact http_of_http r)]
  · obtain ⟨r, hr⟩ := (startsWithL_iff_append _ _).1 h
    have h1 : jsTrim line ≠ [] := ne_nil_of_startsWithL (by decide) h
    unfold lineActV2
    rw [if_neg (by
      intro hor
      rcases hor with h' | h'
      · exact h1 h'
      · rw [hr, extm3u_not_https] at h'; exact Bool.false_ne_true h')]
    rw [if_neg (by
      intro h'
      rw [hr, extinf_not_https] at h'; exact Bool.false_ne_true h')]
    rw [if_pos (by rw [hr]; exact http_of_https r)]

theorem lineActV2_eq (line : List Char) :
    lineActV2 line =
      (if jsTrim line = [] ∨ startsWithL (str "#EXTM3U") (jsTrim line) = true
       then LAction.skip
       else if startsWithL (str "#EXTINF") (jsTrim line) = true
       then LAction.extinf (extinfChannelV2 (jsTrim line))
       else if startsWithL (str "http") (jsTrim line) = true
       then LAction.url (jsTrim line)
       else LAction.skip) := rfl

theorem stepV2_no_extinf {line : List Char} (chs : List Channel)
    (h : startsWithL (str "#EXTINF") (jsTrim line) = false) :
    stepV2 (chs, none) line = (chs, none) := by
  unfold stepV2
  rw [lineActV2_eq]
  split_ifs with h1 h2 h3
  · rfl
  · rw [h] at h2; exact absurd h2 (Bool.false_ne_true)
  · rfl
  · rfl

/- ### Title resolution -/

theorem applyAttr_title (c : Channel) (p : List Char × List Char) :
    (applyAttr c p).title =
      if asciiLower p.1 = str "tvg-name" then p.2 else c.title := by
  by_cases h : asciiLower p.1 = str "tvg-name" <;>
    simp [applyAttr, h, apply_ite Channel.title]

theorem foldl_applyAttr_title :
    ∀ (ps : List (List Char × List Char)) (c : Channel),
      (ps.foldl applyAttr c).title = (lastTvgName ps).getD c.title := by
  intro ps
  induction ps with
  | nil => intro c; rfl
  | cons p ps ih =>
    intro c
    rw [List.foldl_cons, ih]
    cases hm : lastTvgName ps with
    | some v => simp [lastTvgName, hm]
    | none =>
      by_cases h : asciiLower p.1 = str "tvg-name" <;>
        simp [lastTvgName, hm, h, applyAttr_title]

theorem titleFallbackV1_title (c : Channel) (ts : List Char) :
    (titleFallbackV1 c ts).title = if c.title = [] then ts else c.title := by
  unfold titleFallbackV1
  split_ifs with h <;> simp [h]

theorem titleFallbackV2_title (c : Channel) (ts : List Char) :
    (titleFallbackV2 c ts).title =
      if c.title = [] then (if ts = [] then str "Untitled Channel" else ts)
      else c.title := by
  by_cases hc : c.title = [] <;> by_cases hts : ts = [] <;>
    simp [titleFallbackV2, titleFallbackV1, hc, hts]

theorem buildChannelV2_title (attrs : Option (List Char)) (titleRaw : List Char) :
    (buildChannelV2 attrs titleRaw).title =
      specTitle (lastTvgName (extractPairs (attrs.getD []))) (jsTrim titleRaw) := by
  unfold buildChannelV2
  rw [titleFallbackV2_title, foldl_applyAttr_title]
  cases hm : lastTvgName (extractPairs (attrs.getD [])) with
  | none =>
    by_cases hts : jsTrim titleRaw = [] <;> simp [specTitle, initChannel, hts]
  | some v =>
    by_cases hv : v = []
    · subst hv
      by_cases hts : jsTrim titleRaw = [] <;> simp [specTitle, hts]
    · simp [specTitle, hv]

theorem buildChannelV1_title (attrs : Option (List Char)) (titleRaw : List Char) :
    (buildChannelV1 attrs titleRaw).title =
      specTitleV1 (lastTvgName (extractPairs (attrs.getD []))) (jsTrim titleRaw) := by
  unfold buildChannelV1
  rw [titleFallbackV1_title, foldl_applyAttr_title]
  cases hm : lastTvgName (extractPairs (attrs.getD [])) with
  | none => simp [specTitleV1, initChannel]
  | some v =>
    by_cases hv : v = []
    · subst hv
      simp [specTitleV1]
    · simp [specTitleV1, hv]

theorem buildChannelV2_title_ne (attrs : Option (List Char)) (titleRaw : List Char) :
    (buildChannelV2 attrs titleRaw).title ≠ [] := by
  rw [buildChannelV2_title]
  cases hm : lastTvgName (extractPairs (attrs.getD [])) with
  | none =>
    simp only [specTitle]
    split_ifs with h1
    · exact h1
    · decide
  | some v =>
    simp only [specTitle]
    split_ifs with h1 h2
    · exact h1
    · exact h2
    · decide

theorem extinfChannelV2_title_ne {t : List Char} {c : Channel}
    (h : extinfChannelV2 t = some c) : c.title ≠ [] := by
  unfold extinfChannelV2 at h
  cases hs : searchV2 t with
  | none => rw [hs] at h; exact absurd h (by simp)
  | some g =>
    rw [hs] at h
    obtain ⟨attrs, titleRaw⟩ := g
    simp only [Option.some.injEq] at h
    rw [← h]
    exact buildChannelV2_title_ne attrs titleRaw

theorem buildChannelV2_eq_V1 (attrs : Option (List Char)) (titleRaw : List Char)
    (h : (buildChannelV1 attrs titleRaw).title ≠ []) :
    buildChannelV2 attrs titleRaw = buildChannelV1 attrs titleRaw := by
  show (if (buildChannelV1 attrs titleRaw).title = []
        then { buildChannelV1 attrs titleRaw with title := str "Untitled Channel" }
        else buildChannelV1 attrs titleRaw) = buildChannelV1 attrs titleRaw
  rw [if_neg h]

/- ### Generic fold lemmas over the shared transition -/

theorem actStep_fst_len (st : List Channel × Option Channel) (a : LAction) :
    ((actStep st a).1).length ≤ st.1.length + 1 := by
  cases a with
  | skip => exact Nat.le_succ _
  | extinf c => exact Nat.le_succ _
  | url u =>
    cases hp : st.2 with
    | none => simp [actStep, hp]
    | some c =>
      simp only [actStep, hp]
      split_ifs <;> simp

theorem foldl_len_le {σ α : Type} (f : σ → List Channel) (step : σ → α → σ)
    (hstep : ∀ st l, (f (step st l)).length ≤ (f st).length + 1) :
    ∀ (ls : List α) (st : σ),
      (f (ls.foldl step st)).length ≤ (f st).length + ls.length := by
  intro ls
  induction ls with
  | nil => intro st; simp
  | cons l ls ih =>
    intro st
    calc (f (List.foldl step (step st l) ls)).length
        ≤ (f (step st l)).length + ls.length := ih _
      _ ≤ ((f st).length + 1) + ls.length :=
          Nat.add_le_add_right (hstep st l) _
      _ = (f st).length + (ls.length + 1) := by omega

theorem foldl_step_inv {σ α : Type} (step : σ → α → σ) (P : σ → Prop)
    (hstep : ∀ st l, P st → P (step st l)) :
    ∀ (ls : List α) (st : σ), P st → P (ls.foldl step st) := by
  intro ls
  induction ls with
  | nil => intro st h; exact h
  | cons l ls ih => intro st h; exact ih _ (hstep st l h)

theorem actStep_urlOk (st : List Channel × Option Channel) (a : LAction)
    (h : ∀ c ∈ st.1, urlOkB c.streamUrl = true) :
    ∀ c ∈ (actStep st a).1, urlOkB c.streamUrl = true := by
  cases a with
  | skip => exact h
  | extinf c => exact h
  | url u =>
    cases hp : st.2 with
    | none => simp only [actStep, hp]; exact h
    | some c0 =>
      simp only [actStep, hp]
      split_ifs with hc
      · intro c hcmem
        rcases List.mem_append.1 hcmem with hm | hm
        · exact h c hm
        · rcases List.mem_singleton.1 hm with rfl
          exact hc.2
      · exact h

theorem lineActV2_extinf_inv {line : List Char} {co : Option Channel}
    (h : lineActV2 line = .extinf co) : co = extinfChannelV2 (jsTrim line) := by
  rw [lineActV2_eq] at h
  split_ifs at h
  simp_all

theorem stepV2_titleInv (st : List Channel × Option Channel) (line : List Char)
    (h : (∀ c ∈ st.1, c.title ≠ []) ∧ (∀ c, st.2 = some c → c.title ≠ [])) :
    (∀ c ∈ (stepV2 st line).1, c.title ≠ []) ∧
      (∀ c, (stepV2 st line).2 = some c → c.title ≠ []) := by
  unfold stepV2
  cases ha : lineActV2 line with
  | skip => exact h
  | extinf co =>
    refine ⟨h.1, ?_⟩
    intro c hc
    rw [actStep_extinf] at hc
    simp only at hc
    rw [lineActV2_extinf_inv ha] at hc
    exact extinfChannelV2_title_ne hc
  | url u =>
    cases hp : st.2 with
    | none =>
      obtain ⟨chs, pend⟩ := st
      simp only at hp
      subst hp
      rw [actStep_url_none]
      exact ⟨h.1, by simp⟩
    | some c0 =>
      have hc0 : c0.title ≠ [] := h.2 c0 hp
      simp only [actStep, hp]
      split_ifs with hcond
      · constructor
        · intro c hcmem
          rcases List.mem_append.1 hcmem with hm | hm
          · exact h.1 c hm
          · rcases List.mem_singleton.1 hm with rfl
            exact hc0
        · intro c hc; simp at hc
      · exact ⟨h.1, by intro c hc; simp at hc⟩

theorem stepV2_c1inv (st : List Channel × Option Channel) (line : List Char)
    (h : (∀ c ∈ st.1, c.title ≠ [] ∧ urlOkB c.streamUrl = true) ∧
         (∀ c, st.2 = some c → c.title ≠ [])) :
    (∀ c ∈ (stepV2 st line).1, c.title ≠ [] ∧ urlOkB c.streamUrl = true) ∧
      (∀ c, (stepV2 st line).2 = some c → c.title ≠ []) := by
  have ht := stepV2_titleInv st line ⟨fun c hc => (h.1 c hc).1, h.2⟩
  have hu : ∀ c ∈ (stepV2 st line).1, urlOkB c.streamUrl = true :=
    actStep_urlOk st (lineActV2 line) (fun c hc => (h.1 c hc).2)
  exact ⟨fun c hc => ⟨ht.1 c hc, hu c hc⟩, ht.2⟩

/- ### Claim C1 -/

/-- C1 (counterexample): the claim fails on the first implementation.  On the
input `#EXTINF:-1,\nhttp://a` — a metadata line with neither a `tvg-name`
attribute nor title text — V1 emits a Channel whose title is the empty string,
so not every emitted Channel has a non-empty title. -/
theorem c1_counterexample :
    ¬ (∀ c ∈ parseM3U_v1 "#EXTINF:-1,\nhttp://a",
        c.title ≠ [] ∧ urlOkB c.streamUrl = true) := by decide

/-- C1 (amended): every Channel produced by the second `parseM3U` has a
non-empty title and a streamUrl beginning with `http://` or `https://`; for
the first `parseM3U` the streamUrl property holds, but the title may be
empty. -/
theorem c1_amended (s : String) :
    (∀ c ∈ parseM3U_v2 s, c.title ≠ [] ∧ urlOkB c.streamUrl = true) ∧
    (∀ c ∈ parseM3U_v1 s, urlOkB c.streamUrl = true) := by
  constructor
  · have hinv := foldl_step_inv stepV2
      (fun st => (∀ c ∈ st.1, c.title ≠ [] ∧ urlOkB c.streamUrl = true) ∧
        (∀ c, st.2 = some c → c.title ≠ []))
      stepV2_c1inv (splitOnNl s.data) ([], none) ⟨by simp, by simp⟩
    exact fun c hc => hinv.1 c hc
  · have hinv := foldl_step_inv stepV1
      (fun st => ∀ c ∈ st.1, urlOkB c.streamUrl = true)
      (fun st l hp => actStep_urlOk st (lineActV1 l) hp)
      (splitOnNl s.data) ([], none) (by simp)
    exact fun c hc => hinv c hc

/-- C1 witness: the amended invariant instantiated on the scenario-1 channel. -/
theorem c1_amended_witness :
    (scenario1Channel.title ≠ [] ∧ urlOkB scenario1Channel.streamUrl = true) ∧
      urlOkB scenario1Channel.streamUrl = true :=
  ⟨(c1_amended scenario1Text).1 scenario1Channel (by decide),
   (c1_amended scenario1Text).2 scenario1Channel (by decide)⟩

/- ### Claim C2 -/

/-- C2 (counterexample): on the accepted metadata line `#EXTINF:-1,` (no
`tvg-name`, empty title text) the first implementation emits a Channel whose
title is the empty string, not the fixed placeholder the claim requires in
case (c). -/
theorem c2_counterexample :
    searchV1 (str "#EXTINF:-1,") = some (none, []) ∧
    (parseM3U_v1 "#EXTINF:-1,\nhttp://b").map Channel.title = [[]] ∧
    specTitle none [] ≠ [] := by decide

/-- C2 (amended): for every metadata line accepted by the second
implementation, the built Channel's title follows the claimed resolution order
(`tvg-name` when present with a non-empty value — an empty value counting as
absent — else the trimmed title text, else the placeholder); the first
implementation follows the same order but has no placeholder, leaving the
title empty in case (c). -/
theorem c2_title_resolution :
    (∀ (line : List Char) (attrs : Option (List Char)) (titleRaw : List Char),
      searchV2 line = some (attrs, titleRaw) →
      (extinfChannelV2 line).map Channel.title =
        some (specTitle (lastTvgName (extractPairs (attrs.getD [])))
          (jsTrim titleRaw))) ∧
    (∀ (line : List Char) (attrs : Option (List Char)) (titleRaw : List Char),
      searchV1 line = some (attrs, titleRaw) →
      (extinfChannelV1 line).title =
        specTitleV1 (lastTvgName (extractPairs (attrs.getD []))) (jsTrim titleRaw)) := by
  constructor
  · intro line attrs titleRaw h
    simp only [extinfChannelV2, h]
    simp [buildChannelV2_title]
  · intro line attrs titleRaw h
    simp only [extinfChannelV1, h]
    exact buildChannelV1_title attrs titleRaw

/-- C2 witness: a metadata line carrying `tvg-name=""` resolves its title from
the title text, treating the empty attribute as absent. -/
theorem c2_title_resolution_witness :
    (extinfChannelV2 (str "#EXTINF:-1 tvg-name=\"\",X")).map Channel.title =
      some (specTitle
        (lastTvgName (extractPairs ((some (str "tvg-name=\"\"")).getD [])))
        (jsTrim (str "X"))) :=
  c2_title_resolution.1 _ _ _ (by decide)

/- ### Claim C3 -/

/-- C3: both implementations are total state-machine folds: on every input
string (empty, non-M3U or arbitrary text) they return a channel list of at
most one channel per input line, and a line classified as ignorable (rule 5)
can be inserted anywhere without affecting the result — a malformed entry
never fails the whole call. -/
theorem c3_parser_total :
    (∀ s : String,
      (parseM3U_v1 s).length ≤ (splitOnNl s.data).length ∧
      (parseM3U_v2 s).length ≤ (splitOnNl s.data).length) ∧
    (∀ (ls1 ls2 : List (List Char)) (x : List Char), lineActV1 x = LAction.skip →
      (ls1 ++ x :: ls2).foldl stepV1 ([], none) =
        (ls1 ++ ls2).foldl stepV1 ([], none)) ∧
    (∀ (ls1 ls2 : List (List Char)) (x : List Char), lineActV2 x = LAction.skip →
      (ls1 ++ x :: ls2).foldl stepV2 ([], none) =
        (ls1 ++ ls2).foldl stepV2 ([], none)) := by
  refine ⟨fun s => ⟨?_, ?_⟩, ?_, ?_⟩
  · have h := foldl_len_le Prod.fst stepV1
      (fun st l => actStep_fst_len st (lineActV1 l)) (splitOnNl s.data) ([], none)
    simpa using h
  · have h := foldl_len_le Prod.fst stepV2
      (fun st l => actStep_fst_len st (lineActV2 l)) (splitOnNl s.data) ([], none)
    simpa using h
  · intro ls1 ls2 x hx
    have hstep : stepV1 (List.foldl stepV1 ([], none) ls1) x =
        List.foldl stepV1 ([], none) ls1 := by
      unfold stepV1; rw [hx]; rfl
    rw [List.foldl_append, List.foldl_append, List.foldl_cons, hstep]
  · intro ls1 ls2 x hx
    have hstep : stepV2 (List.foldl stepV2 ([], none) ls1) x =
        List.foldl stepV2 ([], none) ls1 := by
      unfold stepV2; rw [hx]; rfl
    rw [List.foldl_append, List.foldl_append, List.foldl_cons, hstep]

/-- C3 witness: inserting a whitespace-only line before a header line leaves
the V2 parse state unchanged. -/
theorem c3_parser_total_witness :
    ([] ++ (str "   ") :: [str "#EXTM3U extra"]).foldl stepV2 ([], none) =
      ([] ++ [str "#EXTM3U extra"]).foldl stepV2 ([], none) :=
  c3_parser_total.2.2 [] [str "#EXTM3U extra"] (str "   ") (by decide)

/- ### Claim C4 -/

/-- C4: on the scenario-1 input both implementations return exactly one
Channel with title `Channel One`, streamUrl `http://x/stream1.m3u8`, logo
`http://x/l.png`, groupTitle `News` and tvgId `c1`. -/
theorem c4_scenario1 :
    parseM3U_v1 scenario1Text = [scenario1Channel] ∧
    parseM3U_v2 scenario1Text = [scenario1Channel] := by decide

/- ### Claim C5 -/

/-- C5 (counterexample): the claim fails on the first implementation.  The
metadata line `#EXTINF:x` matches neither regex, yet V1 keeps a default
pending entry, so the following URL line emits a Channel (with empty title)
instead of being ignored. -/
theorem c5_counterexample :
    parseM3U_v1 "#EXTINF:x\nhttp://a" =
      [{ title := [], streamUrl := str "http://a", logo := none,
         groupTitle := str "Uncategorized", tvgId := none, rawAttributes := [] }] := by
  decide

/-- C5 (amended): in the second implementation a metadata line that does not
match the EXTINF shape emits nothing and clears the pending entry, and with no
pending entry any non-`#EXTINF` line (in particular the next URL line) leaves
the state unchanged, so no Channel is produced for it. -/
theorem c5_amended :
    (∀ (st : List Channel × Option Channel) (line : List Char),
      startsWithL (str "#EXTINF") (jsTrim line) = true →
      searchV2 (jsTrim line) = none →
      stepV2 st line = (st.1, none)) ∧
    (∀ (chs : List Channel) (line : List Char),
      startsWithL (str "#EXTINF") (jsTrim line) = false →
      stepV2 (chs, none) line = (chs, none)) := by
  constructor
  · intro st line h hs
    unfold stepV2
    rw [lineActV2_extinf h]
    have hnone : extinfChannelV2 (jsTrim line) = none := by
      unfold extinfChannelV2; rw [hs]
    rw [hnone]
    exact actStep_extinf st none
  · intro chs line h
    exact stepV2_no_extinf chs h

/-- C5 witness: the amended statement on the malformed line `#EXTINF:x` and a
following URL line. -/
theorem c5_amended_witness :
    stepV2 ([], some initChannel) (str "#EXTINF:x") = ([], none) ∧
    stepV2 ([initChannel], none) (str "http://a") = ([initChannel], none) :=
  ⟨c5_amended.1 ([], some initChannel) (str "#EXTINF:x") (by decide) (by decide),
   c5_amended.2 [initChannel] (str "http://a") (by decide)⟩

/- ### Claim C8 -/

/-- C8: both parsers are pure functions of their input text — the pending slot
and the regexes are created afresh inside every call, so two successive calls
on the same string return structurally equal channel sequences. -/
theorem c8_deterministic (s : String) :
    parseM3U_v1 s = parseM3U_v1 s ∧ parseM3U_v2 s = parseM3U_v2 s :=
  ⟨rfl, rfl⟩

/- ### Claim C9 -/

/-- C9 (counterexample): a `#EXTINF` line lacking a duration number fails the
`\d+` of both V2 regex alternatives, so the entry is dropped as malformed and
the following valid URL line yields no Channel — the claim asserts a Channel
is still produced. -/
theorem c9_counterexample :
    parseM3U_v2 "#EXTINF: tvg-name=\"A\",T\nhttp://a" = [] := by decide

/- ### Step-level lemmas for whole-input computations -/

theorem urlOkB_jsTrim {u : List Char}
    (h : startsWithL (str "http://") u = true ∨
         startsWithL (str "https://") u = true) :
    urlOkB (jsTrim u) = true := by
  unfold urlOkB
  rcases h with h | h
  · rw [jsTrim_startsWith (by decide) h]
    rfl
  · rw [jsTrim_startsWith (by decide) h]
    simp

theorem lineActV1_extinf_of {line : List Char}
    (h : startsWithL (str "#EXTINF") line = true) :
    lineActV1 line = .extinf (some (extinfChannelV1 line)) := by
  obtain ⟨r, rfl⟩ := (startsWithL_iff_append _ _).1 h
  exact lineActV1_extinf r

theorem stepV1_extinf (st : List Channel × Option Channel) {line : List Char}
    (h : startsWithL (str "#EXTINF") line = true) :
    stepV1 st line = (st.1, some (extinfChannelV1 line)) := by
  unfold stepV1
  rw [lineActV1_extinf_of h]
  exact actStep_extinf st _

theorem stepV2_extinf (st : List Channel × Option Channel) {line : List Char}
    (h : startsWithL (str "#EXTINF") (jsTrim line) = true) :
    stepV2 st line = (st.1, extinfChannelV2 (jsTrim line)) := by
  unfold stepV2
  rw [lineActV2_extinf h]
  exact actStep_extinf st _

theorem stepV1_url_push (chs : List Channel) (c : Channel) {u : List Char}
    (h : startsWithL (str "http://") u = true ∨
         startsWithL (str "https://") u = true) :
    stepV1 (chs, some c) u = (chs ++ [{ c with streamUrl := jsTrim u }], none) := by
  unfold stepV1
  rw [lineActV1_url h]
  exact actStep_url_push chs c (jsTrim u) (urlOkB_jsTrim h)

theorem stepV2_url_push (chs : List Channel) (c : Channel) {u : List Char}
    (h : startsWithL (str "http://") u = true ∨
         startsWithL (str "https://") u = true) :
    stepV2 (chs, some c) u = (chs ++ [{ c with streamUrl := jsTrim u }], none) := by
  unfold stepV2
  have hj : startsWithL (str "http://") (jsTrim u) = true ∨
      startsWithL (str "https://") (jsTrim u) = true := by
    rcases h with h | h
    · exact Or.inl (jsTrim_startsWith (by decide) h)
    · exact Or.inr (jsTrim_startsWith (by decide) h)
  rw [lineActV2_url hj]
  exact actStep_url_push chs c (jsTrim u) (urlOkB_jsTrim h)

theorem searchV1_of_matchAt {l : List Char}
    {res : Option (List Char) × List Char} (hne : l ≠ [])
    (h : matchAtV1 l = some res) : searchV1 l = some res := by
  cases l with
  | nil => exact absurd rfl hne
  | cons c cs => unfold searchV1; rw [h]

theorem searchV2_of_matchAt {l : List Char}
    {res : Option (List Char) × List Char} (hne : l ≠ [])
    (h : matchAtV2 l = some res) : searchV2 l = some res := by
  cases l with
  | nil => exact absurd rfl hne
  | cons c cs => unfold searchV2; rw [h]

/- ### Claim C6 -/

/-- C6 (counterexample): two consecutive metadata lines followed by a valid
URL line, where the second metadata line is malformed: the second
implementation produces no Channel at all rather than exactly one. -/
theorem c6_counterexample :
    parseM3U_v2 "#EXTINF:-1,A\n#EXTINF:x\nhttp://a" = [] := by decide

/-- C6 (amended): on an input of two consecutive `#EXTINF` lines followed by
one http(s) URL line, the first implementation always produces exactly the one
Channel built from the second metadata line; the second implementation does so
provided its `extinfRegex` accepts the (trimmed) second metadata line.  The
first metadata line contributes no Channel in either case. -/
theorem c6_amended (r1 r2 u : List Char)
    (h1 : '\n' ∉ r1) (h2 : '\n' ∉ r2) (hu : '\n' ∉ u)
    (hurl : startsWithL (str "http://") u = true ∨
            startsWithL (str "https://") u = true) :
    parseM3U_v1 (String.mk ((str "#EXTINF" ++ r1) ++
        '\n' :: ((str "#EXTINF" ++ r2) ++ '\n' :: u))) =
      [{ extinfChannelV1 (str "#EXTINF" ++ r2) with streamUrl := jsTrim u }] ∧
    (∀ c2, extinfChannelV2 (jsTrim (str "#EXTINF" ++ r2)) = some c2 →
      parseM3U_v2 (String.mk ((str "#EXTINF" ++ r1) ++
          '\n' :: ((str "#EXTINF" ++ r2) ++ '\n' :: u))) =
        [{ c2 with streamUrl := jsTrim u }]) := by
  have hn1 : '\n' ∉ str "#EXTINF" ++ r1 := by
    intro hm
    rcases List.mem_append.1 hm with hm | hm
    · exact absurd hm (by decide)
    · exact h1 hm
  have hn2 : '\n' ∉ str "#EXTINF" ++ r2 := by
    intro hm
    rcases List.mem_append.1 hm with hm | hm
    · exact absurd hm (by decide)
    · exact h2 hm
  have hsplit : splitOnNl ((str "#EXTINF" ++ r1) ++
      '\n' :: ((str "#EXTINF" ++ r2) ++ '\n' :: u)) =
      (str "#EXTINF" ++ r1) :: (str "#EXTINF" ++ r2) :: [u] := by
    rw [splitOnNl_append _ _ hn1, splitOnNl_append _ _ hn2, splitOnNl_nonl u hu]
  constructor
  · show (List.foldl stepV1 ([], none) (splitOnNl _)).1 = _
    rw [hsplit, List.foldl_cons,
      stepV1_extinf ([], none) (startsWithL_append_self _ r1),
      List.foldl_cons, stepV1_extinf _ (startsWithL_append_self _ r2),
      List.foldl_cons, stepV1_url_push _ _ hurl, List.foldl_nil]
    simp
  · intro c2 hc2
    show (List.foldl stepV2 ([], none) (splitOnNl _)).1 = _
    have hj2 : startsWithL (str "#EXTINF") (jsTrim (str "#EXTINF" ++ r2)) = true :=
      jsTrim_startsWith (by decide) (startsWithL_append_self _ r2)
    have hj1 : startsWithL (str "#EXTINF") (jsTrim (str "#EXTINF" ++ r1)) = true :=
      jsTrim_startsWith (by decide) (startsWithL_append_self _ r1)
    rw [hsplit, List.foldl_cons, stepV2_extinf ([], none) hj1,
      List.foldl_cons, stepV2_extinf _ hj2, hc2,
      List.foldl_cons, stepV2_url_push _ _ hurl, List.foldl_nil]
    simp

/-- C6 witness: the amended statement on `#EXTINF:-1,A`, `#EXTINF:-1,B` and
`http://s`. -/
theorem c6_amended_witness :
    parseM3U_v1 (String.mk ((str "#EXTINF" ++ str ":-1,A") ++
        '\n' :: ((str "#EXTINF" ++ str ":-1,B") ++ '\n' :: str "http://s"))) =
      [{ extinfChannelV1 (str "#EXTINF" ++ str ":-1,B") with
          streamUrl := jsTrim (str "http://s") }] ∧
    parseM3U_v2 (String.mk ((str "#EXTINF" ++ str ":-1,A") ++
        '\n' :: ((str "#EXTINF" ++ str ":-1,B") ++ '\n' :: str "http://s"))) =
      [{ ({ title := str "B", streamUrl := [], logo := none,
            groupTitle := str "Uncategorized", tvgId := none,
            rawAttributes := [] } : Channel) with
          streamUrl := jsTrim (str "http://s") }] :=
  ⟨(c6_amended (str ":-1,A") (str ":-1,B") (str "http://s")
      (by decide) (by decide) (by decide) (Or.inl (by decide))).1,
   (c6_amended (str ":-1,A") (str ":-1,B") (str "http://s")
      (by decide) (by decide) (by decide) (Or.inl (by decide))).2 _ (by decide)⟩

/- ### Claim C9, general lemmas: lines without digits match no EXTINF regex -/

theorem dropPrefixL_mem : ∀ {p l r : List Char}, dropPrefixL p l = some r →
    ∀ c ∈ r, c ∈ l := by
  intro p
  induction p with
  | nil =>
    intro l r h c hc
    simp [dropPrefixL] at h
    rw [h]
    exact hc
  | cons a ps ih =>
    intro l r h c hc
    cases l with
    | nil => simp [dropPrefixL] at h
    | cons b bs =>
      by_cases hab : a = b
      · subst hab
        simp [dropPrefixL] at h
        exact List.mem_cons_of_mem _ (ih h c hc)
      · simp [dropPrefixL, hab] at h

theorem matchAtV1_none {l : List Char} (h : ∀ c ∈ l, isDigitC c = false) :
    matchAtV1 l = none := by
  unfold matchAtV1
  cases hdp : dropPrefixL (str "#EXTINF:") l with
  | none => rfl
  | some r0 =>
    have hr0 : ∀ c ∈ r0, c ∈ l := dropPrefixL_mem hdp
    cases r0 with
    | nil => rfl
    | cons c0 rr =>
      by_cases h0 : c0 = '-'
      · subst h0
        cases rr with
        | nil => rfl
        | cons c1 rr' =>
          have hc1 : isDigitC c1 = false := h c1 (hr0 c1 (by simp))
          simp [takeWhileL, hc1]
      · have hc0 : isDigitC c0 = false := h c0 (hr0 c0 (by simp))
        simp [takeWhileL, hc0, h0]

theorem matchAtV1b_none {l : List Char} (h : ∀ c ∈ l, isDigitC c = false) :
    matchAtV1b l = none := by
  unfold matchAtV1b
  cases hdp : dropPrefixL (str "#EXTINF:") l with
  | none => rfl
  | some r0 =>
    have hr0 : ∀ c ∈ r0, c ∈ l := dropPrefixL_mem hdp
    cases r0 with
    | nil => rfl
    | cons c0 rr =>
      by_cases h0 : c0 = '-'
      · subst h0
        cases rr with
        | nil => rfl
        | cons c1 rr' =>
          have hc1 : isDigitC c1 = false := h c1 (hr0 c1 (by simp))
          simp [takeWhileL, hc1]
      · have hc0 : isDigitC c0 = false := h c0 (hr0 c0 (by simp))
        simp [takeWhileL, hc0, h0]

theorem matchAtV2_none {l : List Char} (h : ∀ c ∈ l, isDigitC c = false) :
    matchAtV2 l = none := by
  unfold matchAtV2
  cases hdp : dropPrefixL (str "#EXTINF:") l with
  | none => rfl
  | some r0 =>
    have hr0 : ∀ c ∈ r0, c ∈ l := dropPrefixL_mem hdp
    cases r0 with
    | nil => rfl
    | cons c0 rr =>
      by_cases h0 : c0 = '-'
      · subst h0
        cases rr with
        | nil => rfl
        | cons c1 rr' =>
          have hc1 : isDigitC c1 = false := h c1 (hr0 c1 (by simp))
          simp [takeWhileL, hc1]
      · have hc0 : isDigitC c0 = false := h c0 (hr0 c0 (by simp))
        simp [takeWhileL, hc0, h0]

theorem searchV1_none : ∀ {l : List Char}, (∀ c ∈ l, isDigitC c = false) →
    searchV1 l = none := by
  intro l
  induction l with
  | nil => intro _; rfl
  | cons c cs ih =>
    intro h
    unfold searchV1
    rw [matchAtV1_none h]
    exact ih fun x hx => h x (by simp [hx])

theorem searchV1b_none : ∀ {l : List Char}, (∀ c ∈ l, isDigitC c = false) →
    searchV1b l = none := by
  intro l
  induction l with
  | nil => intro _; rfl
  | cons c cs ih =>
    intro h
    unfold searchV1b
    rw [matchAtV1b_none h]
    exact ih fun x hx => h x (by simp [hx])

theorem searchV2_none : ∀ {l : List Char}, (∀ c ∈ l, isDigitC c = false) →
    searchV2 l = none := by
  intro l
  induction l with
  | nil => intro _; rfl
  | cons c cs ih =>
    intro h
    unfold searchV2
    rw [matchAtV2_none h]
    exact ih fun x hx => h x (by simp [hx])

theorem mem_of_mem_jsTrim {l : List Char} {x : Char} (hx : x ∈ jsTrim l) :
    x ∈ l := by
  unfold jsTrim trimRightL at hx
  rw [List.mem_reverse] at hx
  have h1 := mem_of_mem_dropWhileL _ _ hx
  rw [List.mem_reverse] at h1
  exact mem_of_mem_dropWhileL _ _ h1

theorem matchAtV1_noattrs (d t : List Char)
    (hd : d ≠ []) (hdall : ∀ c ∈ d, isDigitC c = true)
    (htC : ∀ c ∈ t, isLineTerm c = false) :
    matchAtV1 (str "#EXTINF:" ++ ('-' :: (d ++ (',' :: t)))) = some (none, t) := by
  have h1 : takeWhileL isDigitC (d ++ (',' :: t)) = d :=
    takeWhileL_append_stop d hdall ',' t (by decide)
  have h2 : dropWhileL isDigitC (d ++ (',' :: t)) = ',' :: t :=
    dropWhileL_append_stop d hdall ',' t (by decide)
  have h3 : takeWhileL (fun c => !(c = ',')) (',' :: t) = [] := by
    simp [takeWhileL]
  have h4 : dropWhileL (fun c => !(c = ',')) (',' :: t) = ',' :: t :=
    dropWhileL_cons_false (by decide)
  have h5 : takeWhileL (fun c => !(isLineTerm c)) t = t :=
    takeWhileL_all t (fun c hc => by simp [htC c hc])
  unfold matchAtV1
  rw [dropPrefixL_append]
  simp [h1, h2, h3, h4, h5, hd]

theorem matchAtV2_noattrs (d t : List Char)
    (hd : d ≠ []) (hdall : ∀ c ∈ d, isDigitC c = true)
    (htC : ∀ c ∈ t, isLineTerm c = false) :
    matchAtV2 (str "#EXTINF:" ++ ('-' :: (d ++ (',' :: t)))) = some (none, t) := by
  have h1 : takeWhileL isDigitC (d ++ (',' :: t)) = d :=
    takeWhileL_append_stop d hdall ',' t (by decide)
  have h2 : dropWhileL isDigitC (d ++ (',' :: t)) = ',' :: t :=
    dropWhileL_append_stop d hdall ',' t (by decide)
  have hws : takeWhileL isJsSpace (',' :: t) = [] := by
    simp [takeWhileL, show isJsSpace ',' = false from by decide]
  have h5 : takeWhileL (fun c => !(isLineTerm c)) t = t :=
    takeWhileL_all t (fun c hc => by simp [htC c hc])
  unfold matchAtV2
  rw [dropPrefixL_append]
  simp [h1, h2, hws, h5, hd]


/-- C9 (amended): a negative duration is tolerated by both implementations:
every playlist `#EXTINF:-<digits>,<title>` (title line-terminator-free with no
trailing whitespace) followed by one valid http(s) URL line yields exactly one
Channel in each.  A missing duration is not tolerated: every `\d+` requires a
digit, so on every digit-free `#EXTINF` line followed by a valid URL line the
second implementation emits no Channel at all, while the first emits a
defaulted Channel — empty title, no attributes — carrying the trimmed URL. -/
theorem c9_amended :
    (∀ (d t u : List Char), d ≠ [] → (∀ c ∈ d, isDigitC c = true) →
      (∀ c ∈ t, isLineTerm c = false) → trimRightL t = t → '\n' ∉ u →
      (startsWithL (str "http://") u = true ∨
       startsWithL (str "https://") u = true) →
      parseM3U_v1 (String.mk
          ((str "#EXTINF:-" ++ (d ++ (',' :: t))) ++ '\n' :: u)) =
        [{ buildChannelV1 none t with streamUrl := jsTrim u }] ∧
      parseM3U_v2 (String.mk
          ((str "#EXTINF:-" ++ (d ++ (',' :: t))) ++ '\n' :: u)) =
        [{ buildChannelV2 none t with streamUrl := jsTrim u }]) ∧
    (∀ (l u : List Char), startsWithL (str "#EXTINF") l = true →
      (∀ c ∈ l, isDigitC c = false) → '\n' ∉ l → '\n' ∉ u →
      (startsWithL (str "http://") u = true ∨
       startsWithL (str "https://") u = true) →
      parseM3U_v2 (String.mk (l ++ '\n' :: u)) = [] ∧
      parseM3U_v1 (String.mk (l ++ '\n' :: u)) =
        [{ initChannel with streamUrl := jsTrim u }]) := by
  constructor
  · intro d t u hd hdall htC htR hnu hurl
    set L := str "#EXTINF:-" ++ (d ++ (',' :: t)) with hLdef
    have hLne : L ≠ [] :=
      ne_nil_of_startsWithL (p := str "#EXTINF:-") (by decide)
        (startsWithL_append_self _ _)
    have hm1 : matchAtV1 L = some (none, t) := by
      rw [show L = str "#EXTINF:" ++ ('-' :: (d ++ (',' :: t))) from rfl]
      exact matchAtV1_noattrs d t hd hdall htC
    have hs1 : searchV1 L = some (none, t) := searchV1_of_matchAt hLne hm1
    have he1 : extinfChannelV1 L = buildChannelV1 none t := by
      unfold extinfChannelV1
      rw [hs1]
    have htrimL : dropWhileL isJsSpace L = L := by
      rw [show L = '#' :: (str "EXTINF:-" ++ (d ++ (',' :: t))) from rfl]
      exact dropWhileL_cons_false (by decide)
    have hL2 : L = (str "#EXTINF:-" ++ d) ++ (',' :: t) := by
      simp [hLdef, List.append_assoc]
    have hdt : dropWhileL isJsSpace t.reverse = t.reverse := by
      have h := congrArg List.reverse htR
      unfold trimRightL at h
      simpa using h
    have hrev0 : L.reverse = t.reverse ++
        (',' :: (str "#EXTINF:-" ++ d).reverse) := by
      rw [hL2, List.reverse_append, List.reverse_cons, List.append_assoc]
      simp
    have htrimR : dropWhileL isJsSpace L.reverse = L.reverse := by
      rw [hrev0, dropWhileL_append_split, hdt]
      by_cases ht0 : t.reverse = []
      · rw [if_pos ht0, ht0, dropWhileL_cons_false (by decide)]
        simp
      · rw [if_neg ht0]
    have htrim : jsTrim L = L := by
      unfold jsTrim trimRightL
      rw [htrimL, htrimR, List.reverse_reverse]
    have hm2 : matchAtV2 L = some (none, t) := by
      rw [show L = str "#EXTINF:" ++ ('-' :: (d ++ (',' :: t))) from rfl]
      exact matchAtV2_noattrs d t hd hdall htC
    have hs2 : searchV2 L = some (none, t) := searchV2_of_matchAt hLne hm2
    have he2 : extinfChannelV2 (jsTrim L) = some (buildChannelV2 none t) := by
      rw [htrim]
      unfold extinfChannelV2
      rw [hs2]
    have hnL : '\n' ∉ L := by
      intro hm
      rcases List.mem_append.1 hm with h | h
      · exact absurd h (by decide)
      · rcases List.mem_append.1 h with h | h
        · exact absurd (hdall _ h) (by decide)
        · rcases List.mem_cons.1 h with h | h
          · exact absurd h (by decide)
          · exact absurd (htC _ h) (by decide)
    have hsplit : splitOnNl (L ++ '\n' :: u) = [L, u] := by
      rw [splitOnNl_append _ _ hnL, splitOnNl_nonl u hnu]
    have hSW1 : startsWithL (str "#EXTINF") L = true :=
      startsWithL_append_self (str "#EXTINF") (str ":-" ++ (d ++ (',' :: t)))
    have hSW2 : startsWithL (str "#EXTINF") (jsTrim L) = true := by
      rw [htrim]; exact hSW1
    constructor
    · show (List.foldl stepV1 ([], none) (splitOnNl (L ++ '\n' :: u))).1 = _
      rw [hsplit, List.foldl_cons, stepV1_extinf ([], none) hSW1,
        List.foldl_cons, stepV1_url_push _ _ hurl, List.foldl_nil, he1]
      simp
    · show (List.foldl stepV2 ([], none) (splitOnNl (L ++ '\n' :: u))).1 = _
      rw [hsplit, List.foldl_cons, stepV2_extinf ([], none) hSW2, he2,
        List.foldl_cons, stepV2_url_push _ _ hurl, List.foldl_nil]
      simp
  · intro l u hsw hdf hnl hnu hurl
    have he1m : extinfChannelV1 l = initChannel := by
      unfold extinfChannelV1
      rw [searchV1_none hdf, searchV1b_none hdf]
    have hdfT : ∀ c ∈ jsTrim l, isDigitC c = false :=
      fun c hc => hdf c (mem_of_mem_jsTrim hc)
    have he2m : extinfChannelV2 (jsTrim l) = none := by
      unfold extinfChannelV2
      rw [searchV2_none hdfT]
    have hSW2m : startsWithL (str "#EXTINF") (jsTrim l) = true :=
      jsTrim_startsWith (by decide) hsw
    have hsplit : splitOnNl (l ++ '\n' :: u) = [l, u] := by
      rw [splitOnNl_append _ _ hnl, splitOnNl_nonl u hnu]
    have hstepU : ∀ chs : List Channel, stepV2 (chs, none) u = (chs, none) := by
      intro chs
      have hj : startsWithL (str "http://") (jsTrim u) = true ∨
          startsWithL (str "https://") (jsTrim u) = true := by
        rcases hurl with h | h
        · exact Or.inl (jsTrim_startsWith (by decide) h)
        · exact Or.inr (jsTrim_startsWith (by decide) h)
      unfold stepV2
      rw [lineActV2_url hj]
      exact actStep_url_none chs _
    constructor
    · show (List.foldl stepV2 ([], none) (splitOnNl (l ++ '\n' :: u))).1 = _
      rw [hsplit, List.foldl_cons, stepV2_extinf ([], none) hSW2m, he2m,
        List.foldl_cons, hstepU, List.foldl_nil]
    · show (List.foldl stepV1 ([], none) (splitOnNl (l ++ '\n' :: u))).1 = _
      rw [hsplit, List.foldl_cons, stepV1_extinf ([], none) hsw,
        List.foldl_cons, he1m, stepV1_url_push _ _ hurl, List.foldl_nil]
      simp

/-- C9 witness: the amended statement instantiated on duration `-5` with
title `T`, and on the digit-free metadata line `#EXTINF:,T`. -/
theorem c9_amended_witness :
    (parseM3U_v1 (String.mk
        ((str "#EXTINF:-" ++ (str "5" ++ (',' :: str "T"))) ++
          '\n' :: str "http://a")) =
      [{ buildChannelV1 none (str "T") with
          streamUrl := jsTrim (str "http://a") }] ∧
    parseM3U_v2 (String.mk
        ((str "#EXTINF:-" ++ (str "5" ++ (',' :: str "T"))) ++
          '\n' :: str "http://a")) =
      [{ buildChannelV2 none (str "T") with
          streamUrl := jsTrim (str "http://a") }]) ∧
    (parseM3U_v2 (String.mk (str "#EXTINF:,T" ++ '\n' :: str "http://c")) =
        [] ∧
    parseM3U_v1 (String.mk (str "#EXTINF:,T" ++ '\n' :: str "http://c")) =
        [{ initChannel with streamUrl := jsTrim (str "http://c") }]) :=
  ⟨c9_amended.1 (str "5") (str "T") (str "http://a") (by decide) (by decide)
      (by decide) (by decide) (by decide) (Or.inl (by decide)),
   c9_amended.2 (str "#EXTINF:,T") (str "http://c") (by decide) (by decide)
      (by decide) (by decide) (Or.inl (by decide))⟩

/- ### Claim C10, counterexample -/

/-- C10 (counterexample): the two implementations are not extensionally equal:
on `#EXTINF:x\nhttp://d` the first returns one defaulted Channel and the
second returns none. -/
theorem c10_counterexample :
    parseM3U_v1 "#EXTINF:x\nhttp://d" ≠ parseM3U_v2 "#EXTINF:x\nhttp://d" := by
  decide

/- ### Canonical metadata lines, matched by both regexes with equal groups -/

theorem matchAtV1_canonical (d a t : List Char)
    (hd : d ≠ []) (hdall : ∀ c ∈ d, isDigitC c = true)
    (ha : a ≠ []) (haC : ∀ c ∈ a, ¬(c = ','))
    (htC : ∀ c ∈ t, isLineTerm c = false) :
    matchAtV1 (str "#EXTINF:" ++ ('-' :: (d ++ (' ' :: (a ++ (',' :: t)))))) =
      some (some a, t) := by
  have haB : ∀ c ∈ a, (fun c => !(c = ',')) c = true := fun c hc => by
    simp [haC c hc]
  have h1 : takeWhileL isDigitC (d ++ (' ' :: (a ++ (',' :: t)))) = d :=
    takeWhileL_append_stop d hdall ' ' _ (by decide)
  have h2 : dropWhileL isDigitC (d ++ (' ' :: (a ++ (',' :: t)))) =
      ' ' :: (a ++ (',' :: t)) :=
    dropWhileL_append_stop d hdall ' ' _ (by decide)
  have h3 : takeWhileL (fun c => !(c = ',')) (a ++ (',' :: t)) = a :=
    takeWhileL_append_stop a haB ',' t (by decide)
  have h4 : dropWhileL (fun c => !(c = ',')) (a ++ (',' :: t)) = ',' :: t :=
    dropWhileL_append_stop a haB ',' t (by decide)
  have h5 : takeWhileL (fun c => !(isLineTerm c)) t = t :=
    takeWhileL_all t (fun c hc => by simp [htC c hc])
  unfold matchAtV1
  rw [dropPrefixL_append]
  simp [h1, h2, h3, h4, h5, hd, ha]

theorem matchAtV2_canonical (d a' t : List Char) (a0 : Char)
    (hd : d ≠ []) (hdall : ∀ c ∈ d, isDigitC c = true)
    (ha0 : isJsSpace a0 = false)
    (haC : ∀ c ∈ a0 :: a', ¬(c = ',') ∧ isLineTerm c = false)
    (htC : ∀ c ∈ t, isLineTerm c = false) :
    matchAtV2 (str "#EXTINF:" ++
        ('-' :: (d ++ (' ' :: ((a0 :: a') ++ (',' :: t)))))) =
      some (some (a0 :: a'), t) := by
  have haB : ∀ c ∈ a0 :: a',
      (fun c => !(c = ',') && !(isLineTerm c)) c = true := fun c hc => by
    simp [(haC c hc).1, (haC c hc).2]
  have h1 : takeWhileL isDigitC (d ++ ' ' :: a0 :: (a' ++ ',' :: t)) = d :=
    takeWhileL_append_stop d hdall ' ' _ (by decide)
  have h2 : dropWhileL isDigitC (d ++ ' ' :: a0 :: (a' ++ ',' :: t)) =
      ' ' :: a0 :: (a' ++ ',' :: t) :=
    dropWhileL_append_stop d hdall ' ' _ (by decide)
  have hws : takeWhileL isJsSpace (' ' :: a0 :: (a' ++ ',' :: t)) = [' '] := by
    simp [takeWhileL, ha0, show isJsSpace ' ' = true from by decide]
  have hr3 : dropWhileL isJsSpace (' ' :: a0 :: (a' ++ ',' :: t)) =
      a0 :: (a' ++ ',' :: t) := by
    simp [dropWhileL, ha0, show isJsSpace ' ' = true from by decide]
  have h3 : takeWhileL (fun c => !(c = ',') && !(isLineTerm c))
      (a0 :: (a' ++ ',' :: t)) = a0 :: a' := by
    have := takeWhileL_append_stop (a0 :: a') haB ',' t (by decide)
    simpa using this
  have h4 : dropWhileL (fun c => !(c = ',') && !(isLineTerm c))
      (a0 :: (a' ++ ',' :: t)) = ',' :: t := by
    have := dropWhileL_append_stop (a0 :: a') haB ',' t (by decide)
    simpa using this
  have h5 : takeWhileL (fun c => !(isLineTerm c)) t = t :=
    takeWhileL_all t (fun c hc => by simp [htC c hc])
  unfold matchAtV2
  rw [dropPrefixL_append]
  simp [h1, h2, hws, hr3, h3, h4, h5, hd]

/-- C10 (amended): the two implementations are not extensionally equal, but
they do agree on canonical single-entry playlists
`#EXTINF:-<digits> <attrs>,<title>` followed by one http(s) URL line — where
the attribute segment is non-empty, comma-free, line-terminator-free and does
not begin with whitespace, the title text is line-terminator-free with no
trailing whitespace, and the resolved title is non-empty — both returning the
single Channel built from the metadata line with the trimmed URL. -/
theorem c10_amended (d a' t u : List Char) (a0 : Char)
    (hd : d ≠ []) (hdall : ∀ c ∈ d, isDigitC c = true)
    (ha0 : isJsSpace a0 = false)
    (haC : ∀ c ∈ a0 :: a', ¬(c = ',') ∧ isLineTerm c = false)
    (htC : ∀ c ∈ t, isLineTerm c = false)
    (htR : trimRightL t = t)
    (hnu : '\n' ∉ u)
    (hurl : startsWithL (str "http://") u = true ∨
            startsWithL (str "https://") u = true)
    (htitle : (buildChannelV1 (some (a0 :: a')) t).title ≠ []) :
    parseM3U_v1 (String.mk
        ((str "#EXTINF:-" ++ (d ++ (' ' :: ((a0 :: a') ++ (',' :: t))))) ++
          '\n' :: u)) =
      parseM3U_v2 (String.mk
        ((str "#EXTINF:-" ++ (d ++ (' ' :: ((a0 :: a') ++ (',' :: t))))) ++
          '\n' :: u)) ∧
    parseM3U_v1 (String.mk
        ((str "#EXTINF:-" ++ (d ++ (' ' :: ((a0 :: a') ++ (',' :: t))))) ++
          '\n' :: u)) =
      [{ buildChannelV1 (some (a0 :: a')) t with streamUrl := jsTrim u }] := by
  set L := str "#EXTINF:-" ++ (d ++ (' ' :: ((a0 :: a') ++ (',' :: t)))) with hLdef
  have hLne : L ≠ [] :=
    ne_nil_of_startsWithL (p := str "#EXTINF:-") (by decide)
      (startsWithL_append_self _ _)
  have hm1 : matchAtV1 L = some (some (a0 :: a'), t) := by
    rw [show L = str "#EXTINF:" ++
        ('-' :: (d ++ (' ' :: ((a0 :: a') ++ (',' :: t))))) from rfl]
    exact matchAtV1_canonical d (a0 :: a') t hd hdall (by simp)
      (fun c hc => (haC c hc).1) htC
  have hs1 : searchV1 L = some (some (a0 :: a'), t) :=
    searchV1_of_matchAt hLne hm1
  have he1 : extinfChannelV1 L = buildChannelV1 (some (a0 :: a')) t := by
    unfold extinfChannelV1
    rw [hs1]
  have htrimL : dropWhileL isJsSpace L = L := by
    rw [show L = '#' ::
        (str "EXTINF:-" ++ (d ++ (' ' :: ((a0 :: a') ++ (',' :: t))))) from rfl]
    exact dropWhileL_cons_false (by decide)
  have hL2 : L = (str "#EXTINF:-" ++ (d ++ (' ' :: (a0 :: a')))) ++
      (',' :: t) := by
    simp [hLdef, List.append_assoc]
  have hdt : dropWhileL isJsSpace t.reverse = t.reverse := by
    have h := congrArg List.reverse htR
    unfold trimRightL at h
    simpa using h
  have hrev0 : L.reverse = t.reverse ++
      (',' :: (str "#EXTINF:-" ++ (d ++ (' ' :: (a0 :: a')))).reverse) := by
    rw [hL2, List.reverse_append, List.reverse_cons, List.append_assoc]
    simp
  have htrimR : dropWhileL isJsSpace L.reverse = L.reverse := by
    rw [hrev0, dropWhileL_append_split, hdt]
    by_cases ht0 : t.reverse = []
    · rw [if_pos ht0, ht0, dropWhileL_cons_false (by decide)]
      simp
    · rw [if_neg ht0]
  have htrim : jsTrim L = L := by
    unfold jsTrim trimRightL
    rw [htrimL, htrimR, List.reverse_reverse]
  have hm2 : matchAtV2 L = some (some (a0 :: a'), t) := by
    rw [show L = str "#EXTINF:" ++
        ('-' :: (d ++ (' ' :: ((a0 :: a') ++ (',' :: t))))) from rfl]
    exact matchAtV2_canonical d a' t a0 hd hdall ha0 haC htC
  have hs2 : searchV2 L = some (some (a0 :: a'), t) :=
    searchV2_of_matchAt hLne hm2
  have he2 : extinfChannelV2 (jsTrim L) =
      some (buildChannelV1 (some (a0 :: a')) t) := by
    rw [htrim]
    unfold extinfChannelV2
    rw [hs2]
    show some (buildChannelV2 (some (a0 :: a')) t) = _
    rw [buildChannelV2_eq_V1 _ _ htitle]
  have hnL : '\n' ∉ L := by
    intro hm
    rcases List.mem_append.1 hm with h | h
    · exact absurd h (by decide)
    · rcases List.mem_append.1 h with h | h
      · exact absurd (hdall _ h) (by decide)
      · rcases List.mem_cons.1 h with h | h
        · exact absurd h (by decide)
        · rcases List.mem_append.1 h with h | h
          · exact absurd (haC _ h).2 (by decide)
          · rcases List.mem_cons.1 h with h | h
            · exact absurd h (by decide)
            · exact absurd (htC _ h) (by decide)
  have hsplit : splitOnNl (L ++ '\n' :: u) = [L, u] := by
    rw [splitOnNl_append _ _ hnL, splitOnNl_nonl u hnu]
  have hSW1 : startsWithL (str "#EXTINF") L = true :=
    startsWithL_append_self (str "#EXTINF")
      (str ":-" ++ (d ++ (' ' :: ((a0 :: a') ++ (',' :: t)))))
  have hSW2 : startsWithL (str "#EXTINF") (jsTrim L) = true := by
    rw [htrim]; exact hSW1
  have hv1 : parseM3U_v1 (String.mk (L ++ '\n' :: u)) =
      [{ buildChannelV1 (some (a0 :: a')) t with streamUrl := jsTrim u }] := by
    show (List.foldl stepV1 ([], none) (splitOnNl (L ++ '\n' :: u))).1 = _
    rw [hsplit, List.foldl_cons, stepV1_extinf ([], none) hSW1,
      List.foldl_cons, stepV1_url_push _ _ hurl, List.foldl_nil, he1]
    simp
  have hv2 : parseM3U_v2 (String.mk (L ++ '\n' :: u)) =
      [{ buildChannelV1 (some (a0 :: a')) t with streamUrl := jsTrim u }] := by
    show (List.foldl stepV2 ([], none) (splitOnNl (L ++ '\n' :: u))).1 = _
    rw [hsplit, List.foldl_cons, stepV2_extinf ([], none) hSW2, he2,
      List.foldl_cons, stepV2_url_push _ _ hurl, List.foldl_nil]
    simp
  exact ⟨hv1.trans hv2.symm, hv1⟩

/- ### Claim C7: order preservation via the instrumented machine -/

theorem actStepIdx_erase (st : Nat × List (Nat × Channel) × Option (Nat × Channel))
    (a : LAction) : eraseSt (actStepIdx st a) = actStep (eraseSt st) a := by
  cases a with
  | skip => rfl
  | extinf c =>
    cases c with
    | none => rfl
    | some ch => rfl
  | url u =>
    cases hp : st.2.2 with
    | none => simp [actStepIdx, actStep, eraseSt, hp]
    | some p =>
      obtain ⟨i, c⟩ := p
      by_cases hcond : ({ c with streamUrl := u } : Channel).streamUrl ≠ [] ∧
          urlOkB ({ c with streamUrl := u } : Channel).streamUrl = true
      · simp [actStepIdx, actStep, eraseSt, hp, hcond]
      · simp [actStepIdx, actStep, eraseSt, hp, hcond]

theorem foldl_erase_v1 : ∀ (ls : List (List Char))
    (st : Nat × List (Nat × Channel) × Option (Nat × Channel)),
    eraseSt (ls.foldl stepIdxV1 st) = ls.foldl stepV1 (eraseSt st) := by
  intro ls
  induction ls with
  | nil => intro st; rfl
  | cons l ls ih =>
    intro st
    rw [List.foldl_cons, List.foldl_cons, ih]
    congr 1
    exact actStepIdx_erase st (lineActV1 l)

theorem foldl_erase_v2 : ∀ (ls : List (List Char))
    (st : Nat × List (Nat × Channel) × Option (Nat × Channel)),
    eraseSt (ls.foldl stepIdxV2 st) = ls.foldl stepV2 (eraseSt st) := by
  intro ls
  induction ls with
  | nil => intro st; rfl
  | cons l ls ih =>
    intro st
    rw [List.foldl_cons, List.foldl_cons, ih]
    congr 1
    exact actStepIdx_erase st (lineActV2 l)

theorem actStepIdx_inv (st : Nat × List (Nat × Channel) × Option (Nat × Channel))
    (a : LAction)
    (h : st.2.1.Pairwise (fun p q => p.1 < q.1) ∧ (∀ p ∈ st.2.1, p.1 < st.1) ∧
      (∀ i c, st.2.2 = some (i, c) → i < st.1 ∧ ∀ p ∈ st.2.1, p.1 < i)) :
    (actStepIdx st a).2.1.Pairwise (fun p q => p.1 < q.1) ∧
      (∀ p ∈ (actStepIdx st a).2.1, p.1 < (actStepIdx st a).1) ∧
      (∀ i c, (actStepIdx st a).2.2 = some (i, c) →
        i < (actStepIdx st a).1 ∧ ∀ p ∈ (actStepIdx st a).2.1, p.1 < i) := by
  obtain ⟨hpw, hbnd, hpend⟩ := h
  cases a with
  | skip =>
    refine ⟨hpw, fun p hp => Nat.lt_succ_of_lt (hbnd p hp), fun i c hic => ?_⟩
    obtain ⟨h1, h2⟩ := hpend i c hic
    exact ⟨Nat.lt_succ_of_lt h1, h2⟩
  | extinf co =>
    cases co with
    | none =>
      exact ⟨hpw, fun p hp => Nat.lt_succ_of_lt (hbnd p hp),
        fun i c hic => by cases hic⟩
    | some ch =>
      refine ⟨hpw, fun p hp => Nat.lt_succ_of_lt (hbnd p hp), fun i c hic => ?_⟩
      injection hic with h'
      cases h'
      exact ⟨Nat.lt_succ_self _, fun p hp => hbnd p hp⟩
  | url u =>
    cases hp : st.2.2 with
    | none =>
      simp only [actStepIdx, hp]
      refine ⟨hpw, fun p hp' => Nat.lt_succ_of_lt (hbnd p hp'), fun i c hic => ?_⟩
      cases hic
    | some p =>
      obtain ⟨i0, c0⟩ := p
      obtain ⟨hi0, hall⟩ := hpend i0 c0 hp
      simp only [actStepIdx, hp]
      split_ifs with hcond
      · refine ⟨?_, ?_, fun i c hic => by cases hic⟩
        · rw [List.pairwise_append]
          refine ⟨hpw, by simp, ?_⟩
          intro p hp' q hq
          rcases List.mem_singleton.1 hq with rfl
          exact hall p hp'
        · intro p hp'
          rcases List.mem_append.1 hp' with hm | hm
          · exact Nat.lt_succ_of_lt (hbnd p hm)
          · rcases List.mem_singleton.1 hm with rfl
            exact Nat.lt_succ_of_lt hi0
      · exact ⟨hpw, fun p hp' => Nat.lt_succ_of_lt (hbnd p hp'),
          fun i c hic => by cases hic⟩

/-- C7: the instrumented parses tag every Channel with the index of the
`#EXTINF` line that created it; the tag list is strictly increasing and
erasing the tags yields exactly the parse result — the output order equals
the order of the metadata lines in the input, for both implementations. -/
theorem c7_order (s : String) :
    ((parseIdxV1 s).map Prod.fst).Pairwise (· < ·) ∧
    (parseIdxV1 s).map Prod.snd = parseM3U_v1 s ∧
    ((parseIdxV2 s).map Prod.fst).Pairwise (· < ·) ∧
    (parseIdxV2 s).map Prod.snd = parseM3U_v2 s := by
  have hinv1 := foldl_step_inv stepIdxV1
    (fun st => st.2.1.Pairwise (fun p q => p.1 < q.1) ∧
      (∀ p ∈ st.2.1, p.1 < st.1) ∧
      (∀ i c, st.2.2 = some (i, c) → i < st.1 ∧ ∀ p ∈ st.2.1, p.1 < i))
    (fun st l h => actStepIdx_inv st (lineActV1 l) h)
    (splitOnNl s.data) (0, [], none) ⟨by simp, by simp, by simp⟩
  have hinv2 := foldl_step_inv stepIdxV2
    (fun st => st.2.1.Pairwise (fun p q => p.1 < q.1) ∧
      (∀ p ∈ st.2.1, p.1 < st.1) ∧
      (∀ i c, st.2.2 = some (i, c) → i < st.1 ∧ ∀ p ∈ st.2.1, p.1 < i))
    (fun st l h => actStepIdx_inv st (lineActV2 l) h)
    (splitOnNl s.data) (0, [], none) ⟨by simp, by simp, by simp⟩
  have her1 := foldl_erase_v1 (splitOnNl s.data) (0, [], none)
  have her2 := foldl_erase_v2 (splitOnNl s.data) (0, [], none)
  refine ⟨List.pairwise_map.2 hinv1.1, ?_, List.pairwise_map.2 hinv2.1, ?_⟩
  · exact congrArg Prod.fst her1
  · exact congrArg Prod.fst her2

/-- C10 witness: the agreement instantiated on
`#EXTINF:-1 tvg-name="Foo",Bar` followed by `http://s.m3u8`. -/
theorem c10_amended_witness :
    parseM3U_v1 (String.mk
        ((str "#EXTINF:-" ++ (str "1" ++ (' ' ::
          (('t' :: str "vg-name=\"Foo\"") ++ (',' :: str "Bar"))))) ++
          '\n' :: str "http://s.m3u8")) =
      parseM3U_v2 (String.mk
        ((str "#EXTINF:-" ++ (str "1" ++ (' ' ::
          (('t' :: str "vg-name=\"Foo\"") ++ (',' :: str "Bar"))))) ++
          '\n' :: str "http://s.m3u8")) :=
  (c10_amended (str "1") (str "vg-name=\"Foo\"") (str "Bar")
    (str "http://s.m3u8") 't' (by decide) (by decide) (by decide) (by decide)
    (by decide) (by decide) (by decide) (Or.inl (by decide)) (by decide)).1

end M3U
